import Mathlib

/-!
# Focus timer (`app.js`): phase timer and momentum estimator

A shallow embedding of the state-changing functions of `app.js` as pure
functions on an explicit `State`, followed by the properties proved about them.

Modelling conventions.

* The single global `state` object becomes a value of type `State`; every
  function that mutates it becomes a function `State → State`.
* Numbers.  The state functions are written over exact rationals; that is
  what the program computes wherever no rounding occurs, and the properties
  proved of them (ranges, monotonicity, which fields change) do not depend on
  rounding.  The one non-finite value the state can hold, `NaN` (from
  `undefined * 60` when a preset lookup misses), is kept as a separate
  constructor of `JSNum`; it can flow into `targetFocusSeconds` and
  `timeRemaining`.
* Rounding.  The value `inferNextFocusSeconds` returns does depend on rounding:
  an exact score that sits on a tie of `Math.round` can be moved off it by the
  rounding of `0.6 * momentum`.  For that property the function is given a
  second time, as `inferNextFocusSecondsDouble`, over `Dbl`: IEEE-754 doubles
  with every sum, product and quotient rounded to nearest, ties to even,
  overflow to an infinity, and `NaN`.  The numbers of a state are then taken to
  be doubles.
* Stored data is assumed to have the shape `persist` writes: momentum
  snapshots, durations and presets are numbers.
* DOM rendering (`updateUI`), sound (`beep`) and writing to storage
  (`persist`) do not change `state` and are left out.  The clock readings
  `performance.now()` and `Date.now()` are passed in as arguments.
* `switchToNextPhase` ends with a call `log(...)`; no function of that name is
  defined in `app.js`, so the call raises a ReferenceError.  It comes after
  every assignment to `state`, so the state `switchToNextPhase` and `tick`
  leave is the one modelled; only `start` has a statement after such a call,
  and its model skips that statement when the call is reached.
-/

namespace FocusTimer

/-! ## Numbers -/

/-- A JavaScript number as this program can produce it: `NaN` or a finite value. -/
inductive JSNum where
  | nan : JSNum
  | num (q : ℚ) : JSNum
deriving DecidableEq

namespace JSNum

/-- The JavaScript difference `x - d` for a finite `d`. -/
def sub (x : JSNum) (d : ℚ) : JSNum :=
  match x with
  | nan => nan
  | num q => num (q - d)

/-- The JavaScript sum `x + d` for a finite `d`. -/
def add (x : JSNum) (d : ℚ) : JSNum :=
  match x with
  | nan => nan
  | num q => num (q + d)

/-- The JavaScript comparison `x <= 0`; every comparison with `NaN` is false. -/
def leZero (x : JSNum) : Bool :=
  match x with
  | nan => false
  | num q => decide (q ≤ 0)

/-- The JavaScript comparison `x >= 0`; every comparison with `NaN` is false. -/
def geZero (x : JSNum) : Bool :=
  match x with
  | nan => false
  | num q => decide (0 ≤ q)

/-- The value of `Math.max(0, x)`: `NaN` when `x` is `NaN`. -/
def maxZero (x : JSNum) : JSNum :=
  match x with
  | nan => nan
  | num q => num (max 0 q)

end JSNum

/-- The function `clamp(v, a, b)`: `Math.min(b, Math.max(a, v))`. -/
def clamp {α : Type} [LinearOrder α] (v a b : α) : α := min b (max a v)

/-- The function `mapRange(v, inMin, inMax, outMin, outMax)`. -/
def mapRange (v inMin inMax outMin outMax : ℚ) : ℚ :=
  outMin + (outMax - outMin) * (v - inMin) / (inMax - inMin)

/-- The value of `Math.round(x)`: the nearest integer, a tie going up. -/
def mathRound (x : ℚ) : ℤ := ⌊x + 1 / 2⌋

/-- The value of `xs.slice(-k)`: the last `k` elements, or all when there are fewer. -/
def sliceLast {α : Type} (k : ℕ) (xs : List α) : List α := xs.drop (xs.length - k)

/-- The value of `xs[i]` for an integer `i`: `none` stands for `undefined`. -/
def arrayGet (xs : List ℚ) (i : ℤ) : Option ℚ :=
  if i < 0 then none else xs[i.toNat]?

/-- The value of `v * 60` where `v` may be `undefined`: `undefined * 60` is `NaN`. -/
def timesSixty (v : Option ℚ) : JSNum :=
  match v with
  | none => JSNum.nan
  | some q => JSNum.num (q * 60)

/-! ## Data model -/

/-- The three phases of `PHASES`. -/
inductive Phase where
  | Hypothesize : Phase
  | Focus : Phase
  | Reflect : Phase
deriving DecidableEq

/-- The object `settings.durations`; a field that is missing is `none`. -/
structure Durations where
  HYPOTHESIZE : Option ℚ
  FOCUS : Option ℚ
  REFLECT : Option ℚ
deriving DecidableEq

/-- The object `settings.microBreak`; a missing `enabled` counts as false. -/
structure MicroBreak where
  enabled : Bool
  duration : Option ℚ
deriving DecidableEq

/-- The object `state.settings`; `none` stands for a field that is `null` or missing. -/
structure Settings where
  durations : Option Durations
  microBreak : Option MicroBreak
  autoAdvance : Bool
  sound : Bool
  focusPresets : Option (List ℚ)
deriving DecidableEq

/-- One entry of `state.sessions`. -/
structure SessionRecord where
  phase : Phase
  endedAt : ℚ
  momentum : ℚ
  focusSeconds : JSNum
deriving DecidableEq

/-- One entry of `state.tasks`. -/
structure Task where
  id : String
  title : String
  size : String
  done : Bool
deriving DecidableEq

/-- The global `state` object (without the constant `ringLength`). -/
structure State where
  phase : Phase
  timeRemaining : JSNum
  running : Bool
  startTs : Option ℚ
  targetFocusSeconds : JSNum
  momentum : ℚ
  tasks : List Task
  sessions : List SessionRecord
  settings : Settings
deriving DecidableEq

/-- The constant `DEFAULTS.durations.HYPOTHESIZE`. -/
def defaultHypothesize : ℚ := 120

/-- The constant `DEFAULTS.durations.FOCUS`. -/
def defaultFocus : ℚ := 14 * 60

/-- The constant `DEFAULTS.durations.REFLECT`. -/
def defaultReflect : ℚ := 90

/-- The constant `DEFAULTS.focusPresets`, in minutes. -/
def defaultFocusPresets : List ℚ := [7, 14, 21, 28]

/-- The constant `DEFAULTS`. -/
def DEFAULTS : Settings :=
  { durations := some
      { HYPOTHESIZE := some defaultHypothesize
        FOCUS := some defaultFocus
        REFLECT := some defaultReflect }
    microBreak := some { enabled := true, duration := some 20 }
    autoAdvance := true
    sound := false
    focusPresets := some defaultFocusPresets }

/-- The value `state` is created with. -/
def initialState : State :=
  { phase := Phase.Hypothesize
    timeRemaining := JSNum.num defaultHypothesize
    running := false
    startTs := none
    targetFocusSeconds := JSNum.num defaultFocus
    momentum := 0
    tasks := []
    sessions := []
    settings := DEFAULTS }

/-! ## Momentum estimator -/

/-- The function `inferNextFocusSeconds()`. -/
def inferNextFocusSeconds (s : State) : JSNum :=
  let history := sliceLast 6 s.sessions
  let histMomentum : ℚ :=
    if history.length ≠ 0 then
      history.foldl (fun a r => a + r.momentum) 0 / (history.length : ℚ)
    else 0
  let combined : ℚ := (3 / 5) * clamp s.momentum (-2) 4 + (2 / 5) * clamp histMomentum (-2) 4
  -- an array, also an empty one, is truthy: only a missing list falls back
  let presets := match s.settings.focusPresets with
    | some p => p
    | none => defaultFocusPresets
  let idx : ℤ :=
    clamp (mathRound (mapRange combined (-2) 4 0 ((presets.length : ℚ) - 1)))
      0 ((presets.length : ℤ) - 1)
  timesSixty (arrayGet presets idx)

/-- The function `bumpMomentum(amount)`. -/
def bumpMomentum (amount : ℚ) (s : State) : State :=
  { s with momentum := clamp (s.momentum + amount) (-2) 4 }

/-! ## Phase timer -/

/-- The function `setPhase(phase, customSeconds)`; `customSeconds` is `some`
exactly when the argument is a number. -/
def setPhase (phase : Phase) (customSeconds : Option JSNum) (s : State) : State :=
  let seconds : JSNum :=
    match customSeconds with
    | some c => c
    | none =>
      match phase with
      | Phase.Hypothesize =>
        JSNum.num ((s.settings.durations.bind (fun d => d.HYPOTHESIZE)).getD defaultHypothesize)
      | Phase.Focus => s.targetFocusSeconds
      | Phase.Reflect =>
        JSNum.num ((s.settings.durations.bind (fun d => d.REFLECT)).getD defaultReflect)
  { s with phase := phase, timeRemaining := seconds, startTs := none, running := false }

/-- The function `switchToNextPhase()`. -/
def switchToNextPhase (s : State) : State :=
  match s.phase with
  | Phase.Hypothesize => setPhase Phase.Focus none s
  | Phase.Focus => setPhase Phase.Reflect none s
  | Phase.Reflect =>
    let next := inferNextFocusSeconds s
    setPhase Phase.Hypothesize none { s with targetFocusSeconds := next }

/-- The function `pause()`. -/
def pause (s : State) : State := { s with running := false }

/-- The function `nudge(seconds)`. -/
def nudge (seconds : ℚ) (s : State) : State :=
  { s with timeRemaining := (s.timeRemaining.add seconds).maxZero }

/-- The readings of the outside clocks during one call of `tick`:
the three possible calls of `performance.now()` and the call of `Date.now()`. -/
structure Clock where
  perf1 : ℚ
  perf2 : ℚ
  perf3 : ℚ
  dateNow : ℚ

/-- The value of `now || performance.now()`: `now` when it is a non-zero number. -/
def nowOr (now : Option ℚ) (perf : ℚ) : ℚ :=
  match now with
  | some n => if n = 0 then perf else n
  | none => perf

/-- What `tick` leaves scheduled when it returns. -/
inductive Scheduled where
  | nothing : Scheduled
  | nextFrame : Scheduled
  | microBreak (duration : Option ℚ) : Scheduled
deriving DecidableEq

/-- The value of `settings.microBreak?.enabled` as a condition. -/
def microBreakEnabled (st : Settings) : Bool :=
  match st.microBreak with
  | some mb => mb.enabled
  | none => false

/-- The elapsed seconds `dt` that `tick(now)` computes. -/
def tickDt (now : Option ℚ) (c : Clock) (s : State) : ℚ :=
  let startTs : ℚ :=
    match s.startTs with
    | some t => if t = 0 then nowOr now c.perf1 else t
    | none => nowOr now c.perf1
  (nowOr now c.perf2 - startTs) / 1000

/-- The function `tick(now)`: the new state and what it left scheduled. -/
def tick (now : Option ℚ) (c : Clock) (s : State) : State × Scheduled :=
  if !s.running then (s, Scheduled.nothing)
  else
    let dt := tickDt now c s
    let s1 : State :=
      { s with startTs := some (nowOr now c.perf3), timeRemaining := s.timeRemaining.sub dt }
    if s1.timeRemaining.leZero then
      let s2 : State :=
        { s1 with
          timeRemaining := JSNum.num 0
          running := false
          sessions := s1.sessions ++
            [{ phase := s1.phase, endedAt := c.dateNow, momentum := s1.momentum,
               focusSeconds := s1.targetFocusSeconds }] }
      if s2.phase = Phase.Focus ∧ microBreakEnabled s2.settings then
        (s2, Scheduled.microBreak (s2.settings.microBreak.bind (fun mb => mb.duration)))
      else if s2.settings.autoAdvance then (switchToNextPhase s2, Scheduled.nothing)
      else (s2, Scheduled.nothing)
    else (s1, Scheduled.nextFrame)

/-- The callback `tick` hands to the micro-break animation, run when the pulse ends. -/
def afterMicroBreak (s : State) : State :=
  if s.settings.autoAdvance then switchToNextPhase s else s

/-- Whether `tick(now)` gets to the call `switchToNextPhase()`: the timer is
running, runs out, is not at the end of a Focus phase with the micro-break
enabled, and auto-advance is on. -/
def tickAdvances (now : Option ℚ) (c : Clock) (s : State) : Bool :=
  s.running && (s.timeRemaining.sub (tickDt now c s)).leZero &&
    !(decide (s.phase = Phase.Focus) && microBreakEnabled s.settings) &&
    s.settings.autoAdvance

/-- The function `start()`, with `perf0` the clock reading stored in `startTs` and
`c` the readings during the call `tick()`.  The call `tick()` has no argument,
so every `now || performance.now()` in it reads the clock.  When that `tick`
runs out and advances, the call `log(...)` that ends `switchToNextPhase` raises a
ReferenceError (`app.js` defines no `log`), which leaves `start` before
`bumpMomentum(0.5)`; otherwise the bump follows.  (The `beep` changes nothing.) -/
def start (perf0 : ℚ) (c : Clock) (s : State) : State :=
  if s.running then s
  else if tickAdvances none c { s with running := true, startTs := some perf0 } then
    (tick none c { s with running := true, startTs := some perf0 }).1
  else bumpMomentum (1 / 2) (tick none c { s with running := true, startTs := some perf0 }).1

/-- The handler of the keys `1` to `4`, with `i` the key's index and `fallback`
its literal: `targetFocusSeconds = (settings.focusPresets?.[i] || fallback) * 60`. -/
def presetKey (i : ℕ) (fallback : ℚ) (s : State) : State :=
  let picked : ℚ :=
    match s.settings.focusPresets.bind (fun p => p[i]?) with
    | some v => if v = 0 then fallback else v
    | none => fallback
  { s with targetFocusSeconds := JSNum.num (picked * 60) }

/-! ## Loading the stored state -/

/-- What `JSON.parse(localStorage.getItem(key) || fallback)` can meet for one key. -/
inductive Stored (α : Type) where
  /-- Nothing stored: `getItem` gives `null` (or the empty text) and the fallback text is parsed. -/
  | absent : Stored α
  /-- The text is not JSON: `JSON.parse` throws. -/
  | unparseable : Stored α
  /-- The text is JSON of another shape: it fails the test before the assignment. -/
  | wrongShape : Stored α
  /-- The text is JSON of the expected shape. -/
  | wellFormed (v : α) : Stored α

/-- A stored settings object: each key is there (`some`) or not (`none`). -/
structure StoredSettings where
  durations : Option (Option Durations)
  microBreak : Option (Option MicroBreak)
  autoAdvance : Option Bool
  sound : Option Bool
  focusPresets : Option (Option (List ℚ))

/-- The three items `loadState` reads. -/
structure Storage where
  tasks : Stored (List Task)
  settings : Stored StoredSettings
  sessions : Stored (List SessionRecord)

/-- The object `{ ...DEFAULTS, ...settings }`: a key of `settings` replaces the default. -/
def mergeDefaults (p : StoredSettings) : Settings :=
  { durations := p.durations.getD DEFAULTS.durations
    microBreak := p.microBreak.getD DEFAULTS.microBreak
    autoAdvance := p.autoAdvance.getD DEFAULTS.autoAdvance
    sound := p.sound.getD DEFAULTS.sound
    focusPresets := p.focusPresets.getD DEFAULTS.focusPresets }

/-- The value of `JSON.parse(getItem(key) || fallback)`: an exception, or the parsed
value, `some v` when it has the expected shape and `none` when it has not.
`fallback` is what the fallback text parses to. -/
def parseItem {α : Type} (fallback : Option α) (item : Stored α) : Except Unit (Option α) :=
  match item with
  | Stored.absent => Except.ok fallback
  | Stored.unparseable => Except.error ()
  | Stored.wrongShape => Except.ok none
  | Stored.wellFormed v => Except.ok (some v)

/-- The function `loadState()`: the three parses come first, inside one `try`
whose `catch` is empty, then the three guarded assignments. -/
def loadState (st : Storage) (s : State) : State :=
  let parsed : Except Unit (Option (List Task) × Option StoredSettings × Option (List SessionRecord)) := do
    let tasks ← parseItem (some []) st.tasks
    let settings ← parseItem none st.settings
    let sessions ← parseItem (some []) st.sessions
    pure (tasks, settings, sessions)
  match parsed with
  | Except.error _ => s
  | Except.ok (tasks, settings, sessions) =>
    let s1 : State := match tasks with
      | some t => { s with tasks := t }
      | none => s
    let s2 : State := match settings with
      | some p => { s1 with settings := mergeDefaults p }
      | none => s1
    match sessions with
    | some z => { s2 with sessions := z }
    | none => s2

/-- The state `tick` has built when the timer has run out (after the `push` of
the session record), before it looks at the micro-break and auto-advance settings. -/
def expiredState (now : Option ℚ) (c : Clock) (s : State) : State :=
  { s with
    startTs := some (nowOr now c.perf3)
    timeRemaining := JSNum.num 0
    running := false
    sessions := s.sessions ++
      [{ phase := s.phase, endedAt := c.dateNow, momentum := s.momentum,
         focusSeconds := s.targetFocusSeconds }] }

/-- The state `loadState` and then `setPhase(Hypothesize)` build in `setup` when
the stored settings are the object with the one key `focusPresets`, an empty list. -/
def emptyPresetsSetup : State :=
  setPhase Phase.Hypothesize none
    (loadState
      { tasks := Stored.absent
        settings := Stored.wellFormed
          { durations := none, microBreak := none, autoAdvance := none, sound := none,
            focusPresets := some (some []) }
        sessions := Stored.absent }
      initialState)

/-- A running state the program reaches from `emptyPresetsSetup`: four phase
switches (the third one infers the target `NaN`, the fourth one copies it into
`timeRemaining`), the key `1` (target 420), then `start` with the clock at 1000
and, inside its first `tick`, at 1001. -/
def stalledState : State :=
  start 1000 { perf1 := 1001, perf2 := 1001, perf3 := 1001, dateNow := 0 }
    (presetKey 0 7
      (switchToNextPhase (switchToNextPhase (switchToNextPhase (switchToNextPhase
        emptyPresetsSetup)))))

/-- The value `histMomentum` inside `inferNextFocusSeconds`. -/
def histMomentum (sessions : List SessionRecord) : ℚ :=
  if (sliceLast 6 sessions).length ≠ 0 then
    (sliceLast 6 sessions).foldl (fun a r => a + r.momentum) 0 / ((sliceLast 6 sessions).length : ℚ)
  else 0

/-- The value `combined` inside `inferNextFocusSeconds`. -/
def combinedScore (momentum : ℚ) (sessions : List SessionRecord) : ℚ :=
  (3 / 5) * clamp momentum (-2) 4 + (2 / 5) * clamp (histMomentum sessions) (-2) 4

/-- The value `idx` inside `inferNextFocusSeconds`, for a preset list of length `n`. -/
def presetIndex (momentum : ℚ) (sessions : List SessionRecord) (n : ℕ) : ℤ :=
  clamp (mathRound (mapRange (combinedScore momentum sessions) (-2) 4 0 ((n : ℚ) - 1)))
    0 ((n : ℤ) - 1)

/-! ## Double-precision arithmetic -/

/-- The number of halvings that bring `n` below 2, computed with `fuel` steps at most. -/
def log2Fuel : ℕ → ℕ → ℕ
  | 0, _ => 0
  | fuel + 1, n => if n < 2 then 0 else log2Fuel fuel (n / 2) + 1

/-- The binary logarithm of a natural number, rounded down (0 for 0). -/
def natLog2 (n : ℕ) : ℕ := log2Fuel n n

/-- The binary exponent of a non-zero rational `q`: the `e` with `2^e ≤ |q| < 2^(e+1)`. -/
def binaryExponent (q : ℚ) : ℤ :=
  let e0 : ℤ := (natLog2 q.num.natAbs : ℤ) - (natLog2 q.den : ℤ)
  if |q| < (2 : ℚ) ^ e0 then e0 - 1 else e0

/-- The nearest integer, a tie going to the even one. -/
def roundHalfEven (x : ℚ) : ℤ :=
  if x - ⌊x⌋ < 1 / 2 then ⌊x⌋
  else if 1 / 2 < x - ⌊x⌋ then ⌊x⌋ + 1
  else if ⌊x⌋ % 2 = 0 then ⌊x⌋
  else ⌊x⌋ + 1

/-- The spacing of the doubles around `q`: 53 significant bits, exponent not below -1022. -/
def ulp (q : ℚ) : ℚ := (2 : ℚ) ^ (max (binaryExponent q) (-1022) - 52)

/-- The multiple of `ulp q` nearest to `q`, a tie going to the even multiple. -/
def roundToDouble (q : ℚ) : ℚ :=
  if q = 0 then 0 else (roundHalfEven (q / ulp q) : ℚ) * ulp q

/-- An IEEE-754 double: `NaN`, an infinity, or a finite value (the sign of zero is not kept). -/
inductive Dbl where
  | nan : Dbl
  | inf (negative : Bool) : Dbl
  | fin (q : ℚ) : Dbl
deriving DecidableEq

namespace Dbl

/-- The double a real result is rounded to: to nearest, ties to even, and to an
infinity from `2^1024` on. -/
def ofRat (q : ℚ) : Dbl :=
  if (2 : ℚ) ^ 1024 ≤ roundToDouble q then inf false
  else if roundToDouble q ≤ -(2 : ℚ) ^ 1024 then inf true
  else fin (roundToDouble q)

/-- The double sum `x + y`; adding zero changes nothing. -/
def add (x y : Dbl) : Dbl :=
  match x, y with
  | nan, _ => nan
  | _, nan => nan
  | inf a, inf b => if a = b then inf a else nan
  | inf a, fin _ => inf a
  | fin _, inf b => inf b
  | fin a, fin b => if a = 0 then fin b else if b = 0 then fin a else ofRat (a + b)

/-- The double `-x`. -/
def neg (x : Dbl) : Dbl :=
  match x with
  | nan => nan
  | inf a => inf (!a)
  | fin q => fin (-q)

/-- The double difference `x - y`. -/
def sub (x y : Dbl) : Dbl := add x (neg y)

/-- The double product `x * y`. -/
def mul (x y : Dbl) : Dbl :=
  match x, y with
  | nan, _ => nan
  | _, nan => nan
  | inf a, inf b => inf (xor a b)
  | inf a, fin q => if q = 0 then nan else inf (xor a (decide (q < 0)))
  | fin q, inf b => if q = 0 then nan else inf (xor (decide (q < 0)) b)
  | fin a, fin b => ofRat (a * b)

/-- The double quotient `x / y` (a zero divisor is taken as `+0`). -/
def div (x y : Dbl) : Dbl :=
  match x, y with
  | nan, _ => nan
  | _, nan => nan
  | inf _, inf _ => nan
  | inf a, fin q => inf (xor a (decide (q < 0)))
  | fin _, inf _ => fin 0
  | fin a, fin b =>
    if b = 0 then (if a = 0 then nan else inf (decide (a < 0))) else ofRat (a / b)

/-- The value of `Math.max(x, y)`. -/
def max (x y : Dbl) : Dbl :=
  match x, y with
  | nan, _ => nan
  | _, nan => nan
  | inf false, _ => inf false
  | _, inf false => inf false
  | inf true, y => y
  | x, inf true => x
  | fin a, fin b => fin (Max.max a b)

/-- The value of `Math.min(x, y)`. -/
def min (x y : Dbl) : Dbl :=
  match x, y with
  | nan, _ => nan
  | _, nan => nan
  | inf true, _ => inf true
  | _, inf true => inf true
  | inf false, y => y
  | x, inf false => x
  | fin a, fin b => fin (Min.min a b)

/-- The value of `Math.round(x)`: exact, the nearest integer with a tie going up. -/
def round (x : Dbl) : Dbl :=
  match x with
  | fin q => fin (mathRound q)
  | other => other

/-- The function `clamp(v, a, b)` on doubles: `Math.min(b, Math.max(a, v))`. -/
def clamp (v a b : Dbl) : Dbl := min b (max a v)

/-- The function `mapRange` on doubles, each operation rounded. -/
def mapRange (v inMin inMax outMin outMax : Dbl) : Dbl :=
  add outMin (div (mul (sub outMax outMin) (sub v inMin)) (sub inMax inMin))

/-- The value of `xs[i]` for a double `i`: an element when `i` is an index, else `undefined`. -/
def arrayGet (xs : List ℚ) (i : Dbl) : Option ℚ :=
  match i with
  | fin q => if q.den = 1 ∧ 0 ≤ q.num then xs[q.num.toNat]? else none
  | _ => none

/-- The value of `v * 60` where `v` may be `undefined`. -/
def timesSixty (v : Option ℚ) : Dbl :=
  match v with
  | none => nan
  | some q => mul (fin q) (fin 60)

end Dbl

/-- The function `inferNextFocusSeconds()` in double arithmetic: every sum,
product and quotient is rounded as the program rounds it, and the literals `0.6`
and `0.4` are the doubles nearest to them. -/
def inferNextFocusSecondsDouble (s : State) : Dbl :=
  let history := sliceLast 6 s.sessions
  let histMomentum : Dbl :=
    if history.length ≠ 0 then
      Dbl.div (history.foldl (fun a r => Dbl.add a (Dbl.fin r.momentum)) (Dbl.fin 0))
        (Dbl.fin (history.length : ℚ))
    else Dbl.fin 0
  let combined : Dbl :=
    Dbl.add
      (Dbl.mul (Dbl.ofRat (3 / 5)) (Dbl.clamp (Dbl.fin s.momentum) (Dbl.fin (-2)) (Dbl.fin 4)))
      (Dbl.mul (Dbl.ofRat (2 / 5)) (Dbl.clamp histMomentum (Dbl.fin (-2)) (Dbl.fin 4)))
  let presets := match s.settings.focusPresets with
    | some p => p
    | none => defaultFocusPresets
  let idx : Dbl :=
    Dbl.clamp
      (Dbl.round (Dbl.mapRange combined (Dbl.fin (-2)) (Dbl.fin 4) (Dbl.fin 0)
        (Dbl.fin ((presets.length : ℚ) - 1))))
      (Dbl.fin 0) (Dbl.fin ((presets.length : ℚ) - 1))
  Dbl.timesSixty (Dbl.arrayGet presets idx)

/-- The value `histMomentum` inside `inferNextFocusSeconds`, in double arithmetic. -/
def histMomentumDouble (sessions : List SessionRecord) : Dbl :=
  if (sliceLast 6 sessions).length ≠ 0 then
    Dbl.div ((sliceLast 6 sessions).foldl (fun a r => Dbl.add a (Dbl.fin r.momentum)) (Dbl.fin 0))
      (Dbl.fin ((sliceLast 6 sessions).length : ℚ))
  else Dbl.fin 0

/-- The value `combined` inside `inferNextFocusSeconds`, in double arithmetic. -/
def combinedScoreDouble (momentum : ℚ) (sessions : List SessionRecord) : Dbl :=
  Dbl.add
    (Dbl.mul (Dbl.ofRat (3 / 5)) (Dbl.clamp (Dbl.fin momentum) (Dbl.fin (-2)) (Dbl.fin 4)))
    (Dbl.mul (Dbl.ofRat (2 / 5))
      (Dbl.clamp (histMomentumDouble sessions) (Dbl.fin (-2)) (Dbl.fin 4)))

/-- The value `idx` inside `inferNextFocusSeconds`, in double arithmetic, for a
preset list of length `n`. -/
def presetIndexDouble (momentum : ℚ) (sessions : List SessionRecord) (n : ℕ) : Dbl :=
  Dbl.clamp
    (Dbl.round (Dbl.mapRange (combinedScoreDouble momentum sessions) (Dbl.fin (-2)) (Dbl.fin 4)
      (Dbl.fin 0) (Dbl.fin ((n : ℚ) - 1))))
    (Dbl.fin 0) (Dbl.fin ((n : ℚ) - 1))

/-- The state with momentum 3, one session record of momentum 1 and the presets
5, 10, 15, 20, 25, 30: in exact arithmetic the mapped score is the tie 3.5. -/
def tieState : State :=
  { initialState with
    momentum := 3
    sessions := [{ phase := Phase.Focus, endedAt := 0, momentum := 1,
                   focusSeconds := JSNum.num 840 }]
    settings := { DEFAULTS with focusPresets := some [5, 10, 15, 20, 25, 30] } }

/-! ## Auxiliary facts -/

theorem clamp_ge {α : Type} [LinearOrder α] (v a b : α) (hab : a ≤ b) : a ≤ clamp v a b := by
  unfold clamp
  exact le_min hab (le_max_left a v)

theorem clamp_le {α : Type} [LinearOrder α] (v a b : α) : clamp v a b ≤ b := by
  unfold clamp
  exact min_le_left b _

theorem clamp_mono {α : Type} [LinearOrder α] (a b : α) {v w : α} (h : v ≤ w) :
    clamp v a b ≤ clamp w a b := by
  unfold clamp
  exact min_le_min le_rfl (max_le_max le_rfl h)

theorem mathRound_mono {x y : ℚ} (h : x ≤ y) : mathRound x ≤ mathRound y := by
  unfold mathRound
  exact Int.floor_mono (by linarith)

theorem mapRange_eq (v b : ℚ) : mapRange v (-2) 4 0 b = b * (v + 2) / 6 := by
  unfold mapRange
  ring

/-! ## Momentum stays in range (C4) -/

/-- C4: from a momentum in `[-2, 4]` (in particular the initial 0), after
`bumpMomentum` is applied to each amount of any finite list in turn, whatever
their signs and sizes, the momentum is again in `[-2, 4]`. -/
theorem bumpMomentum_sequence_in_range (s : State) (amounts : List ℚ)
    (h : -2 ≤ s.momentum ∧ s.momentum ≤ 4) :
    -2 ≤ (amounts.foldl (fun st a => bumpMomentum a st) s).momentum ∧
      (amounts.foldl (fun st a => bumpMomentum a st) s).momentum ≤ 4 := by
  induction amounts generalizing s with
  | nil => simpa using h
  | cons a rest ih =>
    simp only [List.foldl_cons]
    apply ih
    constructor
    · exact clamp_ge _ _ _ (by norm_num)
    · exact clamp_le _ _ _

/-- C4 at the initial state with the amounts 1/2, -10, 100, 1/20. -/
theorem bumpMomentum_sequence_in_range_witness :
    (-2 ≤ initialState.momentum ∧ initialState.momentum ≤ 4) ∧
      -2 ≤ ([1 / 2, -10, 100, 1 / 20].foldl (fun st a => bumpMomentum a st) initialState).momentum ∧
      ([1 / 2, -10, 100, 1 / 20].foldl (fun st a => bumpMomentum a st) initialState).momentum ≤ 4 :=
  ⟨by simp [initialState],
    bumpMomentum_sequence_in_range initialState [1 / 2, -10, 100, 1 / 20] (by simp [initialState])⟩

/-! ## `setPhase` and the phase cycle (C8, C7) -/

/-- C8: `setPhase(phase)` without custom seconds sets the phase, stops the timer,
clears the start timestamp and resets `timeRemaining` to the duration of the
phase: the configured Hypothesize or Reflect duration, 120 and 90 when that
setting is missing, and the current target focus seconds for Focus.  With a
numeric custom value `c`, `timeRemaining` is `c` instead. -/
theorem setPhase_resets (s : State) (phase : Phase) :
    ((setPhase phase none s).phase = phase ∧
      (setPhase phase none s).running = false ∧
      (setPhase phase none s).startTs = none ∧
      (phase = Phase.Focus → (setPhase phase none s).timeRemaining = s.targetFocusSeconds) ∧
      (phase = Phase.Hypothesize →
        (∀ d q, s.settings.durations = some d → d.HYPOTHESIZE = some q →
          (setPhase phase none s).timeRemaining = JSNum.num q) ∧
        (∀ d, s.settings.durations = some d → d.HYPOTHESIZE = none →
          (setPhase phase none s).timeRemaining = JSNum.num 120) ∧
        (s.settings.durations = none →
          (setPhase phase none s).timeRemaining = JSNum.num 120)) ∧
      (phase = Phase.Reflect →
        (∀ d q, s.settings.durations = some d → d.REFLECT = some q →
          (setPhase phase none s).timeRemaining = JSNum.num q) ∧
        (∀ d, s.settings.durations = some d → d.REFLECT = none →
          (setPhase phase none s).timeRemaining = JSNum.num 90) ∧
        (s.settings.durations = none →
          (setPhase phase none s).timeRemaining = JSNum.num 90))) ∧
    (∀ c : JSNum,
      (setPhase phase (some c) s).phase = phase ∧
      (setPhase phase (some c) s).running = false ∧
      (setPhase phase (some c) s).startTs = none ∧
      (setPhase phase (some c) s).timeRemaining = c) := by
  refine ⟨⟨rfl, rfl, rfl, ?_, ?_, ?_⟩, fun c => ⟨rfl, rfl, rfl, rfl⟩⟩
  · rintro rfl
    rfl
  · rintro rfl
    refine ⟨?_, ?_, ?_⟩
    · intro d q hd hq
      simp [setPhase, hd, hq]
    · intro d hd hq
      simp [setPhase, hd, hq, defaultHypothesize]
    · intro hd
      simp [setPhase, hd, defaultHypothesize]
  · rintro rfl
    refine ⟨?_, ?_, ?_⟩
    · intro d q hd hq
      simp [setPhase, hd, hq]
    · intro d hd hq
      simp [setPhase, hd, hq, defaultReflect]
    · intro hd
      simp [setPhase, hd, defaultReflect]

/-- C8 at a running Focus state with 5 seconds left: `setPhase(Reflect)` gives the
default 90 seconds of `DEFAULTS`, and `setPhase(Reflect, 33)` gives 33. -/
theorem setPhase_resets_witness :
    (setPhase Phase.Reflect none
        { initialState with phase := Phase.Focus, running := true, startTs := some 7,
                            timeRemaining := JSNum.num 5 }).timeRemaining = JSNum.num 90 ∧
      (setPhase Phase.Reflect (some (JSNum.num 33))
        { initialState with phase := Phase.Focus, running := true, startTs := some 7,
                            timeRemaining := JSNum.num 5 }).timeRemaining = JSNum.num 33 :=
  ⟨((setPhase_resets
        { initialState with phase := Phase.Focus, running := true, startTs := some 7,
                            timeRemaining := JSNum.num 5 } Phase.Reflect).1.2.2.2.2.2 rfl).1
      { HYPOTHESIZE := some defaultHypothesize, FOCUS := some defaultFocus,
        REFLECT := some defaultReflect } 90 rfl rfl,
    ((setPhase_resets
        { initialState with phase := Phase.Focus, running := true, startTs := some 7,
                            timeRemaining := JSNum.num 5 } Phase.Reflect).2 (JSNum.num 33)).2.2.2⟩

/-- The inference reads only the momentum, the session log and the settings. -/
theorem inferNextFocusSeconds_congr (s t : State) (hm : s.momentum = t.momentum)
    (hs : s.sessions = t.sessions) (hp : s.settings = t.settings) :
    inferNextFocusSeconds s = inferNextFocusSeconds t := by
  simp only [inferNextFocusSeconds, hm, hs, hp]

/-- C7: from any state in phase Hypothesize, three calls of `switchToNextPhase` go
to Focus, to Reflect and back to Hypothesize; the first two leave
`targetFocusSeconds` as it was, and the third sets it to the value of
`inferNextFocusSeconds` on the momentum, session log and presets of the state
(which the three calls do not change). -/
theorem switchToNextPhase_cycle (s : State) (h : s.phase = Phase.Hypothesize) :
    (switchToNextPhase s).phase = Phase.Focus ∧
    (switchToNextPhase (switchToNextPhase s)).phase = Phase.Reflect ∧
    (switchToNextPhase (switchToNextPhase (switchToNextPhase s))).phase = Phase.Hypothesize ∧
    (switchToNextPhase s).targetFocusSeconds = s.targetFocusSeconds ∧
    (switchToNextPhase (switchToNextPhase s)).targetFocusSeconds = s.targetFocusSeconds ∧
    (switchToNextPhase (switchToNextPhase (switchToNextPhase s))).targetFocusSeconds =
      inferNextFocusSeconds (switchToNextPhase (switchToNextPhase s)) ∧
    inferNextFocusSeconds (switchToNextPhase (switchToNextPhase s)) = inferNextFocusSeconds s ∧
    inferNextFocusSeconds (switchToNextPhase (switchToNextPhase (switchToNextPhase s))) =
      inferNextFocusSeconds s ∧
    (switchToNextPhase (switchToNextPhase (switchToNextPhase s))).momentum = s.momentum ∧
    (switchToNextPhase (switchToNextPhase (switchToNextPhase s))).sessions = s.sessions ∧
    (switchToNextPhase (switchToNextPhase (switchToNextPhase s))).settings = s.settings := by
  have h1 : switchToNextPhase s = setPhase Phase.Focus none s := by
    simp [switchToNextPhase, h]
  have h2 : switchToNextPhase (setPhase Phase.Focus none s) =
      setPhase Phase.Reflect none (setPhase Phase.Focus none s) := by
    simp [switchToNextPhase, setPhase]
  have h3 : switchToNextPhase (setPhase Phase.Reflect none (setPhase Phase.Focus none s)) =
      setPhase Phase.Hypothesize none
        { setPhase Phase.Reflect none (setPhase Phase.Focus none s) with
          targetFocusSeconds :=
            inferNextFocusSeconds (setPhase Phase.Reflect none (setPhase Phase.Focus none s)) } := by
    simp [switchToNextPhase, setPhase]
  rw [h1, h2, h3]
  refine ⟨rfl, rfl, rfl, rfl, rfl, rfl, ?_, ?_, rfl, rfl, rfl⟩
  · exact inferNextFocusSeconds_congr _ _ rfl rfl rfl
  · exact inferNextFocusSeconds_congr _ _ rfl rfl rfl

/-- C7 at the initial state: the cycle returns to Hypothesize with the target the
inference gives there. -/
theorem switchToNextPhase_cycle_witness :
    initialState.phase = Phase.Hypothesize ∧
      (switchToNextPhase (switchToNextPhase (switchToNextPhase initialState))).phase =
        Phase.Hypothesize ∧
      (switchToNextPhase (switchToNextPhase (switchToNextPhase initialState))).targetFocusSeconds =
        inferNextFocusSeconds (switchToNextPhase (switchToNextPhase initialState)) :=
  ⟨rfl, (switchToNextPhase_cycle initialState rfl).2.2.1,
    (switchToNextPhase_cycle initialState rfl).2.2.2.2.2.1⟩

/-! ## One call of `tick` -/

theorem tick_not_running (now : Option ℚ) (c : Clock) (s : State) (hr : s.running = false) :
    tick now c s = (s, Scheduled.nothing) := by
  simp [tick, hr]

theorem tick_continue (now : Option ℚ) (c : Clock) (s : State) (hr : s.running = true)
    (he : (s.timeRemaining.sub (tickDt now c s)).leZero = false) :
    tick now c s =
      ({ s with startTs := some (nowOr now c.perf3),
                timeRemaining := s.timeRemaining.sub (tickDt now c s) },
        Scheduled.nextFrame) := by
  simp [tick, hr, he]

theorem tick_expire (now : Option ℚ) (c : Clock) (s : State) (hr : s.running = true)
    (he : (s.timeRemaining.sub (tickDt now c s)).leZero = true) :
    tick now c s =
      if s.phase = Phase.Focus ∧ microBreakEnabled s.settings = true then
        (expiredState now c s,
          Scheduled.microBreak (s.settings.microBreak.bind (fun mb => mb.duration)))
      else if s.settings.autoAdvance = true then
        (switchToNextPhase (expiredState now c s), Scheduled.nothing)
      else (expiredState now c s, Scheduled.nothing) := by
  simp [tick, hr, he, expiredState]

theorem tick_of_tickAdvances (now : Option ℚ) (c : Clock) (s : State)
    (h : tickAdvances now c s = true) :
    tick now c s = (switchToNextPhase (expiredState now c s), Scheduled.nothing) := by
  simp only [tickAdvances, Bool.and_eq_true, Bool.not_eq_true_eq_eq_false, Bool.and_eq_false_imp,
    decide_eq_true_eq, Bool.not_eq_eq_eq_not, Bool.not_true] at h
  obtain ⟨⟨⟨hr, he⟩, hf⟩, ha⟩ := h
  rw [tick_expire now c s hr he, if_neg (by
    rintro ⟨hp, hm⟩
    rw [hf hp] at hm
    exact absurd hm (by decide)), if_pos ha]

theorem microBreakEnabled_iff (st : Settings) :
    microBreakEnabled st = true ↔ ∃ mb, st.microBreak = some mb ∧ mb.enabled = true := by
  unfold microBreakEnabled
  cases h : st.microBreak <;> simp

theorem setPhase_sessions (phase : Phase) (custom : Option JSNum) (s : State) :
    (setPhase phase custom s).sessions = s.sessions := rfl

theorem switchToNextPhase_sessions (s : State) : (switchToNextPhase s).sessions = s.sessions := by
  unfold switchToNextPhase
  cases s.phase <;> rfl

theorem switchToNextPhase_running (s : State) : (switchToNextPhase s).running = false := by
  unfold switchToNextPhase
  cases s.phase <;> rfl

/-! ## The session log (C5) -/

/-- C5: the session log only grows, and only when a running `tick` runs out.
`setPhase`, `switchToNextPhase`, `nudge`, `bumpMomentum` and a `tick` that is not
running or does not bring `timeRemaining` to `<= 0` leave the log as it is; a
running `tick` that brings `timeRemaining` to `<= 0` gives the old log followed by
exactly one record, holding the phase at expiry, the current momentum and the
current target focus seconds. -/
theorem sessions_append_only (s : State) :
    (∀ phase custom, (setPhase phase custom s).sessions = s.sessions) ∧
    (switchToNextPhase s).sessions = s.sessions ∧
    (∀ seconds, (nudge seconds s).sessions = s.sessions) ∧
    (∀ amount, (bumpMomentum amount s).sessions = s.sessions) ∧
    (∀ now c, s.running = false ∨ (s.timeRemaining.sub (tickDt now c s)).leZero = false →
      (tick now c s).1.sessions = s.sessions) ∧
    (∀ now c, s.running = true → (s.timeRemaining.sub (tickDt now c s)).leZero = true →
      (tick now c s).1.sessions = s.sessions ++
        [{ phase := s.phase, endedAt := c.dateNow, momentum := s.momentum,
           focusSeconds := s.targetFocusSeconds }]) := by
  refine ⟨fun _ _ => rfl, switchToNextPhase_sessions s, fun _ => rfl, fun _ => rfl, ?_, ?_⟩
  · intro now c h
    cases hr : s.running with
    | false => rw [tick_not_running now c s hr]
    | true =>
      rcases h with h | h
      · rw [hr] at h
        exact absurd h (by decide)
      · rw [tick_continue now c s hr h]
  · intro now c hr he
    rw [tick_expire now c s hr he]
    split_ifs
    · rfl
    · rw [switchToNextPhase_sessions]
      rfl
    · rfl

/-- C5 on the scenario of the specification: phase Focus, half a second left, a
tick one second after the last one (clock 1000 then 2000) appends exactly one
record, with phase Focus. -/
theorem sessions_append_only_witness :
    (tick (some 2000) { perf1 := 0, perf2 := 0, perf3 := 0, dateNow := 5 }
        { initialState with phase := Phase.Focus, timeRemaining := JSNum.num (1 / 2),
                            running := true, startTs := some 1000 }).1.sessions =
      [] ++ [{ phase := Phase.Focus, endedAt := 5, momentum := 0,
               focusSeconds := JSNum.num defaultFocus }] :=
  (sessions_append_only
      { initialState with phase := Phase.Focus, timeRemaining := JSNum.num (1 / 2),
                          running := true, startTs := some 1000 }).2.2.2.2.2
    (some 2000) { perf1 := 0, perf2 := 0, perf3 := 0, dateNow := 5 } rfl
    (by norm_num [tickDt, nowOr, JSNum.sub, JSNum.leZero])

/-! ## What an expiring `tick` does next (C6) -/

/-- C6: when a running `tick` brings `timeRemaining` to `<= 0`, `running` becomes
false.  If auto-advance is off, or the phase is Focus and the micro-break is
enabled (the pulse is scheduled and the advance waits for its end), the state
after `tick` is the expired state: the same phase with `timeRemaining = 0`.
Otherwise it is the state `switchToNextPhase` gives from the expired state: the
next phase, with `timeRemaining` the duration `setPhase` gives that phase. -/
theorem tick_expiry_advances (s : State) (now : Option ℚ) (c : Clock)
    (hr : s.running = true)
    (he : (s.timeRemaining.sub (tickDt now c s)).leZero = true) :
    (tick now c s).1.running = false ∧
    ((s.settings.autoAdvance = false ∨
        (s.phase = Phase.Focus ∧ ∃ mb, s.settings.microBreak = some mb ∧ mb.enabled = true)) →
      (tick now c s).1 = expiredState now c s ∧
      (tick now c s).1.phase = s.phase ∧
      (tick now c s).1.timeRemaining = JSNum.num 0) ∧
    ((s.phase = Phase.Focus ∧ ∃ mb, s.settings.microBreak = some mb ∧ mb.enabled = true) →
      (tick now c s).2 = Scheduled.microBreak (s.settings.microBreak.bind (fun mb => mb.duration))) ∧
    (¬ (s.settings.autoAdvance = false ∨
        (s.phase = Phase.Focus ∧ ∃ mb, s.settings.microBreak = some mb ∧ mb.enabled = true)) →
      (tick now c s).1 = switchToNextPhase (expiredState now c s) ∧
      (tick now c s).2 = Scheduled.nothing ∧
      (s.phase = Phase.Hypothesize →
        (tick now c s).1.phase = Phase.Focus ∧
        (tick now c s).1.timeRemaining = s.targetFocusSeconds) ∧
      (s.phase = Phase.Focus →
        (tick now c s).1.phase = Phase.Reflect ∧
        (tick now c s).1.timeRemaining = (setPhase Phase.Reflect none s).timeRemaining) ∧
      (s.phase = Phase.Reflect →
        (tick now c s).1.phase = Phase.Hypothesize ∧
        (tick now c s).1.timeRemaining = (setPhase Phase.Hypothesize none s).timeRemaining)) := by
  rw [tick_expire now c s hr he]
  simp only [microBreakEnabled_iff]
  refine ⟨?_, ?_, ?_, ?_⟩
  · split_ifs
    · rfl
    · exact switchToNextPhase_running _
    · rfl
  · rintro (ha | hf)
    · by_cases hf : s.phase = Phase.Focus ∧ ∃ mb, s.settings.microBreak = some mb ∧ mb.enabled = true
      · rw [if_pos hf]
        exact ⟨rfl, rfl, rfl⟩
      · rw [if_neg hf, if_neg (by simp [ha])]
        exact ⟨rfl, rfl, rfl⟩
    · rw [if_pos hf]
      exact ⟨rfl, rfl, rfl⟩
  · intro hf
    rw [if_pos hf]
  · intro h
    have hf : ¬ (s.phase = Phase.Focus ∧
        ∃ mb, s.settings.microBreak = some mb ∧ mb.enabled = true) := fun hf => h (Or.inr hf)
    have ha : s.settings.autoAdvance = true := by
      cases haa : s.settings.autoAdvance with
      | true => rfl
      | false => exact absurd (Or.inl haa) h
    rw [if_neg hf, if_pos ha]
    refine ⟨rfl, rfl, ?_, ?_, ?_⟩
    · intro hp
      simp [switchToNextPhase, expiredState, hp, setPhase]
    · intro hp
      simp [switchToNextPhase, expiredState, hp, setPhase]
    · intro hp
      simp [switchToNextPhase, expiredState, hp, setPhase]

/-- C6 on a Reflect phase with one second left and a tick two seconds later, under
the default settings (auto-advance on): the timer stops and the state is the one
`switchToNextPhase` gives from the expired state, in phase Hypothesize. -/
theorem tick_expiry_advances_witness :
    (tick (some 3000) { perf1 := 0, perf2 := 0, perf3 := 0, dateNow := 5 }
        { initialState with phase := Phase.Reflect, timeRemaining := JSNum.num 1,
                            running := true, startTs := some 1000 }).1.running = false ∧
      (tick (some 3000) { perf1 := 0, perf2 := 0, perf3 := 0, dateNow := 5 }
        { initialState with phase := Phase.Reflect, timeRemaining := JSNum.num 1,
                            running := true, startTs := some 1000 }).1.phase = Phase.Hypothesize :=
  ⟨(tick_expiry_advances
      { initialState with phase := Phase.Reflect, timeRemaining := JSNum.num 1,
                          running := true, startTs := some 1000 }
      (some 3000) { perf1 := 0, perf2 := 0, perf3 := 0, dateNow := 5 } rfl
      (by norm_num [tickDt, nowOr, JSNum.sub, JSNum.leZero])).1,
    ((tick_expiry_advances
      { initialState with phase := Phase.Reflect, timeRemaining := JSNum.num 1,
                          running := true, startTs := some 1000 }
      (some 3000) { perf1 := 0, perf2 := 0, perf3 := 0, dateNow := 5 } rfl
      (by norm_num [tickDt, nowOr, JSNum.sub, JSNum.leZero])).2.2.2
      (by simp [initialState, DEFAULTS])).2.2.2.2 rfl |>.1⟩

/-! ## `timeRemaining` after `tick` (C3) -/

theorem inferNextFocusSeconds_empty (s : State) (h : s.settings.focusPresets = some []) :
    inferNextFocusSeconds s = JSNum.nan := by
  simp [inferNextFocusSeconds, h, arrayGet, timesSixty]

theorem setPhase_timeRemaining_geZero (s : State) (phase : Phase)
    (hH : ∀ d q, s.settings.durations = some d → d.HYPOTHESIZE = some q → 0 ≤ q)
    (hR : ∀ d q, s.settings.durations = some d → d.REFLECT = some q → 0 ≤ q)
    (hT : phase = Phase.Focus → s.targetFocusSeconds.geZero = true) :
    (setPhase phase none s).timeRemaining.geZero = true := by
  cases phase with
  | Focus => exact hT rfl
  | Hypothesize =>
    cases hd : s.settings.durations with
    | none => simp [setPhase, hd, JSNum.geZero, defaultHypothesize]
    | some d =>
      cases hq : d.HYPOTHESIZE with
      | none => simp [setPhase, hd, hq, JSNum.geZero, defaultHypothesize]
      | some q => simpa [setPhase, hd, hq, JSNum.geZero] using hH d q hd hq
  | Reflect =>
    cases hd : s.settings.durations with
    | none => simp [setPhase, hd, JSNum.geZero, defaultReflect]
    | some d =>
      cases hq : d.REFLECT with
      | none => simp [setPhase, hd, hq, JSNum.geZero, defaultReflect]
      | some q => simpa [setPhase, hd, hq, JSNum.geZero] using hR d q hd hq

theorem switchToNextPhase_timeRemaining_geZero (s : State)
    (hH : ∀ d q, s.settings.durations = some d → d.HYPOTHESIZE = some q → 0 ≤ q)
    (hR : ∀ d q, s.settings.durations = some d → d.REFLECT = some q → 0 ≤ q)
    (hT : s.targetFocusSeconds.geZero = true) :
    (switchToNextPhase s).timeRemaining.geZero = true := by
  unfold switchToNextPhase
  cases s.phase with
  | Hypothesize => exact setPhase_timeRemaining_geZero s _ hH hR (fun _ => hT)
  | Focus => exact setPhase_timeRemaining_geZero s _ hH hR (fun h => absurd h (by decide))
  | Reflect =>
    exact setPhase_timeRemaining_geZero _ _ hH hR (fun h => absurd h (by decide))

/-- C3, on every state whose `timeRemaining` is a number: for a running timer whose
configured Hypothesize and Reflect durations and whose target focus seconds are
non-negative, and for every clock reading (so for every elapsed time, also one
larger than `timeRemaining`), the state after `tick` has `timeRemaining >= 0`. -/
theorem tick_timeRemaining_nonneg (s : State) (now : Option ℚ) (c : Clock)
    (hr : s.running = true)
    (hnum : ∃ t : ℚ, s.timeRemaining = JSNum.num t)
    (hH : ∀ d q, s.settings.durations = some d → d.HYPOTHESIZE = some q → 0 ≤ q)
    (hR : ∀ d q, s.settings.durations = some d → d.REFLECT = some q → 0 ≤ q)
    (hT : s.targetFocusSeconds.geZero = true) :
    (tick now c s).1.timeRemaining.geZero = true := by
  obtain ⟨t, ht⟩ := hnum
  cases he : (s.timeRemaining.sub (tickDt now c s)).leZero with
  | false =>
    rw [tick_continue now c s hr he]
    rw [ht] at he ⊢
    simp only [JSNum.sub, JSNum.leZero, JSNum.geZero, decide_eq_false_iff_not, not_le,
      decide_eq_true_eq] at he ⊢
    exact le_of_lt he
  | true =>
    rw [tick_expire now c s hr he]
    split_ifs
    · simp [expiredState, JSNum.geZero]
    · exact switchToNextPhase_timeRemaining_geZero (expiredState now c s) hH hR hT
    · simp [expiredState, JSNum.geZero]

/-- C3 amended, on a Focus phase with half a second left and a tick one second
later: the elapsed second exceeds what is left and `timeRemaining` ends at 0. -/
theorem tick_timeRemaining_nonneg_witness :
    (tick (some 2000) { perf1 := 0, perf2 := 0, perf3 := 0, dateNow := 5 }
        { initialState with phase := Phase.Focus, timeRemaining := JSNum.num (1 / 2),
                            running := true, startTs := some 1000 }).1.timeRemaining.geZero
      = true :=
  tick_timeRemaining_nonneg
    { initialState with phase := Phase.Focus, timeRemaining := JSNum.num (1 / 2),
                        running := true, startTs := some 1000 }
    (some 2000) { perf1 := 0, perf2 := 0, perf3 := 0, dateNow := 5 } rfl ⟨1 / 2, rfl⟩
    (by
      intro d q hd hq
      simp only [initialState, DEFAULTS, Option.some.injEq] at hd
      subst hd
      simp only [Option.some.injEq] at hq
      subst hq
      norm_num [defaultHypothesize])
    (by
      intro d q hd hq
      simp only [initialState, DEFAULTS, Option.some.injEq] at hd
      subst hd
      simp only [Option.some.injEq] at hq
      subst hq
      norm_num [defaultReflect])
    (by norm_num [initialState, JSNum.geZero, defaultFocus])

/-- C3 as stated fails on `stalledState`, a running state the program reaches
when the stored preset list is empty: its phase durations are the defaults, its
target focus seconds are 420, its `timeRemaining` is `NaN`, and after a later
`tick` its `timeRemaining` is still `NaN`, for which `>= 0` is false. -/
theorem tick_timeRemaining_nan_counterexample :
    stalledState.running = true ∧
    stalledState.settings.durations = DEFAULTS.durations ∧
    (∀ d q, stalledState.settings.durations = some d → d.HYPOTHESIZE = some q → 0 ≤ q) ∧
    (∀ d q, stalledState.settings.durations = some d → d.REFLECT = some q → 0 ≤ q) ∧
    stalledState.targetFocusSeconds = JSNum.num 420 ∧
    stalledState.targetFocusSeconds.geZero = true ∧
    stalledState.timeRemaining = JSNum.nan ∧
    (tick (some 2000) { perf1 := 0, perf2 := 0, perf3 := 0, dateNow := 5 }
      stalledState).1.timeRemaining = JSNum.nan ∧
    (tick (some 2000) { perf1 := 0, perf2 := 0, perf3 := 0, dateNow := 5 }
      stalledState).1.timeRemaining.geZero = false := by
  have h2 : switchToNextPhase (switchToNextPhase emptyPresetsSetup) =
      setPhase Phase.Reflect none (setPhase Phase.Focus none emptyPresetsSetup) := rfl
  have hn : inferNextFocusSeconds
      (setPhase Phase.Reflect none (setPhase Phase.Focus none emptyPresetsSetup)) = JSNum.nan :=
    inferNextFocusSeconds_empty _ rfl
  have h3 : switchToNextPhase (switchToNextPhase (switchToNextPhase emptyPresetsSetup)) =
      setPhase Phase.Hypothesize none
        { setPhase Phase.Reflect none (setPhase Phase.Focus none emptyPresetsSetup) with
          targetFocusSeconds := JSNum.nan } := by
    rw [h2]
    have h : switchToNextPhase
        (setPhase Phase.Reflect none (setPhase Phase.Focus none emptyPresetsSetup)) =
        setPhase Phase.Hypothesize none
          { setPhase Phase.Reflect none (setPhase Phase.Focus none emptyPresetsSetup) with
            targetFocusSeconds := inferNextFocusSeconds
              (setPhase Phase.Reflect none (setPhase Phase.Focus none emptyPresetsSetup)) } := rfl
    rw [h, hn]
  have h4 : (switchToNextPhase (switchToNextPhase (switchToNextPhase (switchToNextPhase
      emptyPresetsSetup)))).timeRemaining = JSNum.nan := by
    rw [h3]
    rfl
  have hp : (switchToNextPhase (switchToNextPhase (switchToNextPhase (switchToNextPhase
      emptyPresetsSetup)))).settings.focusPresets = some [] := by
    rw [h3]
    rfl
  have hrun : (switchToNextPhase (switchToNextPhase (switchToNextPhase (switchToNextPhase
      emptyPresetsSetup)))).running = false := switchToNextPhase_running _
  have hst : stalledState =
      bumpMomentum (1 / 2)
        { presetKey 0 7 (switchToNextPhase (switchToNextPhase (switchToNextPhase
            (switchToNextPhase emptyPresetsSetup)))) with
          running := true
          startTs := some 1001
          timeRemaining := JSNum.nan } := by
    unfold stalledState start
    rw [if_neg (by simp only [presetKey, hrun]; decide)]
    rw [if_neg (by
      simp only [tickAdvances, presetKey, h4, JSNum.sub, JSNum.leZero]
      simp)]
    rw [tick_continue _ _ _ rfl (by
      show (JSNum.sub (switchToNextPhase (switchToNextPhase (switchToNextPhase
        (switchToNextPhase emptyPresetsSetup)))).timeRemaining _).leZero = false
      rw [h4]
      rfl)]
    simp only [presetKey, h4, JSNum.sub, nowOr]
  have ht : stalledState.timeRemaining = JSNum.nan := by
    rw [hst]
    rfl
  have hr : stalledState.running = true := by
    rw [hst]
    rfl
  have hd : stalledState.settings.durations = DEFAULTS.durations := by
    rw [hst, h3]
    rfl
  have hg : stalledState.targetFocusSeconds = JSNum.num 420 := by
    rw [hst]
    simp only [bumpMomentum, presetKey, hp]
    norm_num
  have hk : (tick (some 2000) { perf1 := 0, perf2 := 0, perf3 := 0, dateNow := 5 }
      stalledState).1.timeRemaining = JSNum.nan := by
    rw [tick_continue _ _ _ hr (by rw [ht]; rfl)]
    simp only [ht]
    rfl
  refine ⟨hr, hd, ?_, ?_, hg, ?_, ht, hk, ?_⟩
  · intro d q h1 h5
    rw [hd] at h1
    simp only [DEFAULTS, Option.some.injEq] at h1
    subst h1
    simp only [Option.some.injEq] at h5
    subst h5
    norm_num [defaultHypothesize]
  · intro d q h1 h5
    rw [hd] at h1
    simp only [DEFAULTS, Option.some.injEq] at h1
    subst h1
    simp only [Option.some.injEq] at h5
    subst h5
    norm_num [defaultReflect]
  · rw [hg]
    norm_num [JSNum.geZero]
  · rw [hk]
    rfl

/-! ## The inference in exact arithmetic (C2, C10) -/

theorem inferNextFocusSeconds_eq (s : State) (p : List ℚ) (h : s.settings.focusPresets = some p) :
    inferNextFocusSeconds s =
      timesSixty (arrayGet p (presetIndex s.momentum s.sessions p.length)) := by
  simp only [inferNextFocusSeconds, h, presetIndex, combinedScore, histMomentum]

theorem presetIndex_range (m : ℚ) (sessions : List SessionRecord) (n : ℕ) (hn : 0 < n) :
    0 ≤ presetIndex m sessions n ∧ presetIndex m sessions n < n := by
  have h1 : (0 : ℤ) ≤ (n : ℤ) - 1 := by omega
  constructor
  · exact clamp_ge _ _ _ h1
  · have := clamp_le (mathRound (mapRange (combinedScore m sessions) (-2) 4 0 ((n : ℚ) - 1)))
      0 ((n : ℤ) - 1)
    unfold presetIndex
    omega

theorem presetIndex_mono (sessions : List SessionRecord) (n : ℕ) (hn : 0 < n) {m1 m2 : ℚ}
    (h : m1 ≤ m2) : presetIndex m1 sessions n ≤ presetIndex m2 sessions n := by
  unfold presetIndex
  apply clamp_mono
  apply mathRound_mono
  rw [mapRange_eq, mapRange_eq]
  have hn1 : (0 : ℚ) ≤ (n : ℚ) - 1 := by
    have : (1 : ℚ) ≤ (n : ℚ) := by exact_mod_cast hn
    linarith
  have hc : combinedScore m1 sessions ≤ combinedScore m2 sessions := by
    unfold combinedScore
    have := clamp_mono (-2 : ℚ) 4 h
    linarith
  have : ((n : ℚ) - 1) * (combinedScore m1 sessions + 2) ≤
      ((n : ℚ) - 1) * (combinedScore m2 sessions + 2) :=
    mul_le_mul_of_nonneg_left (by linarith) hn1
  linarith

theorem arrayGet_in_range (p : List ℚ) (i : ℤ) (h0 : 0 ≤ i) (h1 : i < p.length) :
    ∃ hi : i.toNat < p.length, arrayGet p i = some (p.get ⟨i.toNat, hi⟩) := by
  have hi : i.toNat < p.length := by omega
  refine ⟨hi, ?_⟩
  unfold arrayGet
  rw [if_neg (by omega)]
  simp [List.getElem?_eq_getElem hi]

theorem sliceLast_eq_reverse {α : Type} (k : ℕ) (xs : List α) :
    sliceLast k xs = (xs.reverse.take k).reverse := by
  unfold sliceLast
  rw [List.reverse_take]
  simp

theorem inferNextFocusSeconds_nonempty (s : State) (p : List ℚ)
    (h : s.settings.focusPresets = some p) (hp : p ≠ []) :
    ∃ hi : (presetIndex s.momentum s.sessions p.length).toNat < p.length,
      0 ≤ presetIndex s.momentum s.sessions p.length ∧
      inferNextFocusSeconds s =
        JSNum.num (p.get ⟨(presetIndex s.momentum s.sessions p.length).toNat, hi⟩ * 60) := by
  have hn : 0 < p.length := List.length_pos.mpr hp
  obtain ⟨h0, h1⟩ := presetIndex_range s.momentum s.sessions p.length hn
  obtain ⟨hi, hg⟩ := arrayGet_in_range p _ h0 h1
  refine ⟨hi, h0, ?_⟩
  rw [inferNextFocusSeconds_eq s p h, hg]
  rfl

/-- C2 amended: for every momentum, session log and non-empty configured preset
list, `inferNextFocusSeconds` returns 60 times some element of that list. -/
theorem inferNextFocusSeconds_from_presets (s : State) (p : List ℚ)
    (h : s.settings.focusPresets = some p) (hp : p ≠ []) :
    ∃ x ∈ p, inferNextFocusSeconds s = JSNum.num (60 * x) := by
  obtain ⟨hi, _, he⟩ := inferNextFocusSeconds_nonempty s p h hp
  exact ⟨_, List.get_mem p _ hi, by rw [he, mul_comm]⟩

/-- C2 amended, at the initial state with the one-entry preset list `[5]`. -/
theorem inferNextFocusSeconds_from_presets_witness :
    ∃ x ∈ [(5 : ℚ)],
      inferNextFocusSeconds
        { initialState with settings := { DEFAULTS with focusPresets := some [5] } } =
        JSNum.num (60 * x) :=
  inferNextFocusSeconds_from_presets
    { initialState with settings := { DEFAULTS with focusPresets := some [5] } } [5] rfl (by simp)

/-- C2 as stated fails on the empty configured list: the index is -1, the lookup
gives `undefined`, and the result `undefined * 60` is `NaN`, which is not 60
times an element of the list (the list has none). -/
theorem inferNextFocusSeconds_empty_counterexample :
    inferNextFocusSeconds
        { initialState with settings := { DEFAULTS with focusPresets := some [] } } = JSNum.nan ∧
      ¬ ∃ x ∈ ([] : List ℚ),
        inferNextFocusSeconds
          { initialState with settings := { DEFAULTS with focusPresets := some [] } } =
          JSNum.num (60 * x) :=
  ⟨inferNextFocusSeconds_empty _ rfl, by simp⟩

/-- C10: for every session log and every non-empty preset list sorted in
ascending order, the suggested duration does not decrease when the current
momentum goes up. -/
theorem inferNextFocusSeconds_mono (s : State) (p : List ℚ) (m1 m2 : ℚ)
    (h : s.settings.focusPresets = some p) (hp : p ≠ []) (hs : p.Sorted (· ≤ ·))
    (hm : m1 ≤ m2) :
    ∃ a b : ℚ, inferNextFocusSeconds { s with momentum := m1 } = JSNum.num a ∧
      inferNextFocusSeconds { s with momentum := m2 } = JSNum.num b ∧ a ≤ b := by
  have hn : 0 < p.length := List.length_pos.mpr hp
  obtain ⟨hi1, h01, he1⟩ := inferNextFocusSeconds_nonempty { s with momentum := m1 } p h hp
  obtain ⟨hi2, h02, he2⟩ := inferNextFocusSeconds_nonempty { s with momentum := m2 } p h hp
  refine ⟨_, _, he1, he2, ?_⟩
  have hle : presetIndex m1 s.sessions p.length ≤ presetIndex m2 s.sessions p.length :=
    presetIndex_mono s.sessions p.length hn hm
  have hnat : (presetIndex m1 s.sessions p.length).toNat ≤
      (presetIndex m2 s.sessions p.length).toNat := Int.toNat_le_toNat hle
  have hget := hs.rel_get_of_le (a := ⟨_, hi1⟩) (b := ⟨_, hi2⟩) hnat
  exact mul_le_mul_of_nonneg_right hget (by norm_num)

/-- C10 at the default presets and an empty log, for the momenta -2 and 4. -/
theorem inferNextFocusSeconds_mono_witness :
    ∃ a b : ℚ, inferNextFocusSeconds { initialState with momentum := -2 } = JSNum.num a ∧
      inferNextFocusSeconds { initialState with momentum := 4 } = JSNum.num b ∧ a ≤ b :=
  inferNextFocusSeconds_mono initialState defaultFocusPresets (-2) 4 rfl
    (by simp [defaultFocusPresets]) (by norm_num [defaultFocusPresets, List.Sorted]) (by norm_num)

/-! ## Loading the stored state (C9) -/

theorem loadState_of_parsed (st : Storage) (s : State)
    (ht : st.tasks ≠ Stored.unparseable) (hg : st.settings ≠ Stored.unparseable)
    (hz : st.sessions ≠ Stored.unparseable) :
    (loadState st s).tasks =
      (match st.tasks with
        | Stored.wellFormed v => v
        | Stored.absent => []
        | _ => s.tasks) ∧
    (loadState st s).settings =
      (match st.settings with
        | Stored.wellFormed v => mergeDefaults v
        | _ => s.settings) ∧
    (loadState st s).sessions =
      (match st.sessions with
        | Stored.wellFormed v => v
        | Stored.absent => []
        | _ => s.sessions) := by
  obtain ⟨tasks, settings, sessions⟩ := st
  cases tasks <;> cases settings <;> cases sessions <;>
    first
      | exact absurd rfl ht
      | exact absurd rfl hg
      | exact absurd rfl hz
      | exact ⟨rfl, rfl, rfl⟩

theorem loadState_of_unparseable (st : Storage) (s : State)
    (h : st.tasks = Stored.unparseable ∨ st.settings = Stored.unparseable ∨
      st.sessions = Stored.unparseable) :
    loadState st s = s := by
  obtain ⟨tasks, settings, sessions⟩ := st
  cases tasks <;> cases settings <;> cases sessions <;>
    first
      | rfl
      | (exfalso
         rcases h with h | h | h <;> cases h)

/-- C9 amended: `loadState` always returns a state.  When none of the three
stored items is unparseable text, each item is handled on its own: a well-formed
item is loaded (an array for tasks and for sessions, an object for settings,
merged over the defaults) and an absent or wrong-shaped item leaves its field at
the default, whatever the other two are.  When any one of the three is
unparseable text, nothing is loaded: all three fields stay at their defaults. -/
theorem loadState_items (st : Storage) :
    ((st.tasks ≠ Stored.unparseable ∧ st.settings ≠ Stored.unparseable ∧
        st.sessions ≠ Stored.unparseable) →
      (∀ v, st.tasks = Stored.wellFormed v → (loadState st initialState).tasks = v) ∧
      (st.tasks = Stored.absent ∨ st.tasks = Stored.wrongShape →
        (loadState st initialState).tasks = []) ∧
      (∀ v, st.settings = Stored.wellFormed v →
        (loadState st initialState).settings = mergeDefaults v) ∧
      (st.settings = Stored.absent ∨ st.settings = Stored.wrongShape →
        (loadState st initialState).settings = DEFAULTS) ∧
      (∀ v, st.sessions = Stored.wellFormed v → (loadState st initialState).sessions = v) ∧
      (st.sessions = Stored.absent ∨ st.sessions = Stored.wrongShape →
        (loadState st initialState).sessions = [])) ∧
    ((st.tasks = Stored.unparseable ∨ st.settings = Stored.unparseable ∨
        st.sessions = Stored.unparseable) →
      loadState st initialState = initialState ∧
      (loadState st initialState).tasks = [] ∧
      (loadState st initialState).settings = DEFAULTS ∧
      (loadState st initialState).sessions = []) := by
  constructor
  · rintro ⟨ht, hg, hz⟩
    obtain ⟨h1, h2, h3⟩ := loadState_of_parsed st initialState ht hg hz
    refine ⟨?_, ?_, ?_, ?_, ?_, ?_⟩
    · intro v hv
      rw [h1, hv]
    · rintro (hv | hv)
      · rw [h1, hv]
      · rw [h1, hv]
        rfl
    · intro v hv
      rw [h2, hv]
    · rintro (hv | hv)
      · rw [h2, hv]
        rfl
      · rw [h2, hv]
        rfl
    · intro v hv
      rw [h3, hv]
    · rintro (hv | hv)
      · rw [h3, hv]
      · rw [h3, hv]
        rfl
  · intro h
    rw [loadState_of_unparseable st initialState h]
    exact ⟨rfl, rfl, rfl, rfl⟩

/-- C9 amended, on a store with one task, settings of the wrong shape and no
sessions: the task is loaded, the settings and the sessions stay at the defaults. -/
theorem loadState_items_witness :
    (loadState
        { tasks := Stored.wellFormed [{ id := "a", title := "write", size := "S", done := false }]
          settings := Stored.wrongShape
          sessions := Stored.absent } initialState).tasks =
      [{ id := "a", title := "write", size := "S", done := false }] ∧
    (loadState
        { tasks := Stored.wellFormed [{ id := "a", title := "write", size := "S", done := false }]
          settings := Stored.wrongShape
          sessions := Stored.absent } initialState).settings = DEFAULTS :=
  ⟨((loadState_items
      { tasks := Stored.wellFormed [{ id := "a", title := "write", size := "S", done := false }]
        settings := Stored.wrongShape
        sessions := Stored.absent }).1
      ⟨by simp, by simp, by simp⟩).1 _ rfl,
    ((loadState_items
      { tasks := Stored.wellFormed [{ id := "a", title := "write", size := "S", done := false }]
        settings := Stored.wrongShape
        sessions := Stored.absent }).1
      ⟨by simp, by simp, by simp⟩).2.2.2.1 (Or.inr rfl)⟩

/-- C9 as stated fails when one item is unparseable text: with one well-formed
task stored, settings text that `JSON.parse` rejects and no sessions, the
exception skips every assignment and the task list stays empty. -/
theorem loadState_unparseable_counterexample :
    (loadState
        { tasks := Stored.wellFormed [{ id := "a", title := "write", size := "S", done := false }]
          settings := Stored.unparseable
          sessions := Stored.absent } initialState).tasks = [] ∧
    (loadState
        { tasks := Stored.wellFormed [{ id := "a", title := "write", size := "S", done := false }]
          settings := Stored.unparseable
          sessions := Stored.absent } initialState).tasks ≠
      [{ id := "a", title := "write", size := "S", done := false }] :=
  ⟨rfl, by
    show ([] : List Task) ≠ _
    simp⟩

/-! ## The inference formula in double arithmetic (C1) -/

theorem log2Fuel_eq (fuel n : ℕ) (h : n ≤ fuel) : log2Fuel fuel n = Nat.log2 n := by
  induction fuel generalizing n with
  | zero =>
    have h0 : n = 0 := by omega
    subst h0
    simp [log2Fuel, Nat.log2_zero]
  | succ k ih =>
    rw [log2Fuel, Nat.log2]
    by_cases h2 : n < 2
    · rw [if_pos h2, if_neg (by omega)]
    · rw [if_neg h2, if_pos (by omega), ih (n / 2) (by omega)]

theorem natLog2_le (n : ℕ) (h : n ≠ 0) : 2 ^ natLog2 n ≤ n := by
  rw [natLog2, log2Fuel_eq n n le_rfl]
  exact Nat.log2_self_le h

theorem lt_natLog2 (n : ℕ) : n < 2 ^ (natLog2 n + 1) := by
  rw [natLog2, log2Fuel_eq n n le_rfl]
  exact Nat.lt_log2_self

theorem abs_eq_natAbs_div_den (q : ℚ) : |q| = (q.num.natAbs : ℚ) / (q.den : ℚ) := by
  have hd : (0 : ℚ) < (q.den : ℚ) := by exact_mod_cast q.den_pos
  conv_lhs => rw [← Rat.num_div_den q]
  rw [abs_div, abs_of_pos hd]
  rw [Nat.cast_natAbs, Int.cast_abs]

theorem binaryExponent_le (q : ℚ) (hq : q ≠ 0) : (2 : ℚ) ^ binaryExponent q ≤ |q| := by
  unfold binaryExponent
  simp only
  split_ifs with hlt
  · have ha : q.num.natAbs ≠ 0 := by
      simpa [Int.natAbs_eq_zero] using hq
    have h1 : ((2 : ℚ) ^ natLog2 q.num.natAbs) ≤ (q.num.natAbs : ℚ) := by
      exact_mod_cast natLog2_le _ ha
    have h2 : (q.den : ℚ) ≤ (2 : ℚ) ^ (natLog2 q.den + 1) := by
      exact_mod_cast (lt_natLog2 q.den).le
    have hd : (0 : ℚ) < (q.den : ℚ) := by exact_mod_cast q.den_pos
    have he : (2 : ℚ) ^ ((natLog2 q.num.natAbs : ℤ) - (natLog2 q.den : ℤ) - 1) =
        (2 : ℚ) ^ natLog2 q.num.natAbs / (2 : ℚ) ^ (natLog2 q.den + 1) := by
      rw [show ((natLog2 q.num.natAbs : ℤ) - (natLog2 q.den : ℤ) - 1) =
        (natLog2 q.num.natAbs : ℤ) - ((natLog2 q.den + 1 : ℕ) : ℤ) by push_cast; ring]
      rw [zpow_sub₀ (by norm_num : (2 : ℚ) ≠ 0), zpow_natCast, zpow_natCast]
    rw [he, abs_eq_natAbs_div_den]
    exact div_le_div₀ (by positivity) h1 hd h2
  · exact le_of_not_lt hlt

theorem roundHalfEven_near (x : ℚ) : |(roundHalfEven x : ℚ) - x| ≤ 1 / 2 := by
  have h1 : (⌊x⌋ : ℚ) ≤ x := Int.floor_le x
  have h2 : x < (⌊x⌋ : ℚ) + 1 := Int.lt_floor_add_one x
  unfold roundHalfEven
  split_ifs with ha hb hc
  · rw [abs_le]
    constructor <;> linarith
  · rw [abs_le]
    push_cast
    constructor <;> linarith
  · rw [abs_le]
    constructor <;> linarith
  · rw [abs_le]
    push_cast
    constructor <;> linarith

theorem ulp_pos (q : ℚ) : 0 < ulp q := by
  unfold ulp
  exact zpow_pos (by norm_num) _

theorem ulp_le (q : ℚ) (hq : q ≠ 0) : ulp q ≤ |q| + 1 := by
  unfold ulp
  rcases le_total (binaryExponent q) (-1022) with h | h
  · rw [max_eq_right h]
    have : (2 : ℚ) ^ ((-1022 : ℤ) - 52) ≤ 1 := zpow_le_one_of_nonpos₀ (by norm_num) (by norm_num)
    have := abs_nonneg q
    linarith
  · rw [max_eq_left h]
    have h1 : (2 : ℚ) ^ (binaryExponent q - 52) ≤ (2 : ℚ) ^ binaryExponent q :=
      zpow_le_zpow_right₀ (by norm_num) (by omega)
    have := binaryExponent_le q hq
    linarith

theorem roundToDouble_near (q : ℚ) : |roundToDouble q - q| ≤ ulp q / 2 := by
  unfold roundToDouble
  split_ifs with h0
  · subst h0
    simp only [sub_zero, abs_zero]
    exact (div_pos (ulp_pos 0) (by norm_num)).le
  · have hu := ulp_pos q
    have hn := roundHalfEven_near (q / ulp q)
    have he : (roundHalfEven (q / ulp q) : ℚ) * ulp q - q =
        ((roundHalfEven (q / ulp q) : ℚ) - q / ulp q) * ulp q := by
      field_simp
    rw [he, abs_mul, abs_of_pos hu]
    calc |(roundHalfEven (q / ulp q) : ℚ) - q / ulp q| * ulp q ≤ 1 / 2 * ulp q :=
          mul_le_mul_of_nonneg_right hn hu.le
      _ = ulp q / 2 := by ring

theorem roundToDouble_abs_le (q : ℚ) : |roundToDouble q| ≤ 2 * |q| + 1 := by
  by_cases h0 : q = 0
  · subst h0
    simp [roundToDouble]
  · have h1 := roundToDouble_near q
    have h2 := ulp_le q h0
    have h3 := ulp_pos q
    have h4 : |roundToDouble q| ≤ |roundToDouble q - q| + |q| := by
      have := abs_add (roundToDouble q - q) q
      simpa using this
    have := abs_nonneg q
    linarith

theorem Dbl.ofRat_ne_nan (q : ℚ) : Dbl.ofRat q ≠ Dbl.nan := by
  unfold Dbl.ofRat
  split_ifs <;> simp

theorem Dbl.ofRat_fin_of_abs_le (q : ℚ) (h : |q| ≤ 1000) :
    ∃ r, Dbl.ofRat q = Dbl.fin r ∧ |r| ≤ 2 * |q| + 1 := by
  have hb := roundToDouble_abs_le q
  have hbig : (2001 : ℚ) < (2 : ℚ) ^ 1024 := by norm_num
  have h1 := le_abs_self (roundToDouble q)
  have h2 := neg_abs_le (roundToDouble q)
  refine ⟨roundToDouble q, ?_, hb⟩
  unfold Dbl.ofRat
  rw [if_neg (by linarith), if_neg (by linarith)]

theorem Dbl.add_fin_fin (a b : ℚ) (h : |a| + |b| ≤ 1000) :
    ∃ r, Dbl.add (Dbl.fin a) (Dbl.fin b) = Dbl.fin r ∧ |r| ≤ 2 * (|a| + |b|) + 1 := by
  have ha := abs_nonneg a
  have hb := abs_nonneg b
  simp only [Dbl.add]
  split_ifs with h1 h2
  · exact ⟨b, rfl, by linarith⟩
  · exact ⟨a, rfl, by linarith⟩
  · have hab := abs_add a b
    obtain ⟨r, hr, hle⟩ := Dbl.ofRat_fin_of_abs_le (a + b) (by linarith)
    exact ⟨r, hr, by linarith⟩

theorem Dbl.mul_fin_fin (a b : ℚ) (h : |a| * |b| ≤ 1000) :
    ∃ r, Dbl.mul (Dbl.fin a) (Dbl.fin b) = Dbl.fin r ∧ |r| ≤ 2 * (|a| * |b|) + 1 := by
  simp only [Dbl.mul]
  obtain ⟨r, hr, hle⟩ := Dbl.ofRat_fin_of_abs_le (a * b) (by rw [abs_mul]; exact h)
  rw [abs_mul] at hle
  exact ⟨r, hr, hle⟩

theorem Dbl.add_fin_ne_nan (x : Dbl) (b : ℚ) (hx : x ≠ Dbl.nan) :
    Dbl.add x (Dbl.fin b) ≠ Dbl.nan := by
  cases x with
  | nan => exact absurd rfl hx
  | inf a => simp [Dbl.add]
  | fin a =>
    simp only [Dbl.add]
    split_ifs
    · simp
    · simp
    · exact Dbl.ofRat_ne_nan _

theorem Dbl.foldl_add_ne_nan (l : List SessionRecord) (x : Dbl) (hx : x ≠ Dbl.nan) :
    l.foldl (fun a r => Dbl.add a (Dbl.fin r.momentum)) x ≠ Dbl.nan := by
  induction l generalizing x with
  | nil => simpa using hx
  | cons r rest ih =>
    simp only [List.foldl_cons]
    exact ih _ (Dbl.add_fin_ne_nan x r.momentum hx)

theorem Dbl.div_fin_ne_nan (x : Dbl) (b : ℚ) (hx : x ≠ Dbl.nan) (hb : b ≠ 0) :
    Dbl.div x (Dbl.fin b) ≠ Dbl.nan := by
  cases x with
  | nan => exact absurd rfl hx
  | inf a => simp [Dbl.div]
  | fin a =>
    simp only [Dbl.div, if_neg hb]
    exact Dbl.ofRat_ne_nan _

theorem Dbl.mul_fin_fin_ne_nan (a b : ℚ) : Dbl.mul (Dbl.fin a) (Dbl.fin b) ≠ Dbl.nan := by
  simp only [Dbl.mul]
  exact Dbl.ofRat_ne_nan _

theorem Dbl.zero_add (x : Dbl) : Dbl.add (Dbl.fin 0) x = x := by
  cases x <;> simp [Dbl.add]

theorem Dbl.sub_zero (a : ℚ) : Dbl.sub (Dbl.fin a) (Dbl.fin 0) = Dbl.fin a := by
  simp only [Dbl.sub, Dbl.neg, neg_zero, Dbl.add]
  split_ifs with h
  · rw [h]
  · rfl

theorem Dbl.sub_neg_two (x : Dbl) : Dbl.sub x (Dbl.fin (-2)) = Dbl.add x (Dbl.fin 2) := by
  simp [Dbl.sub, Dbl.neg]

theorem Dbl.four_sub_neg_two : Dbl.sub (Dbl.fin 4) (Dbl.fin (-2)) = Dbl.fin 6 := by decide!

theorem Dbl.mapRange_double_eq (v : Dbl) (b : ℚ) :
    Dbl.mapRange v (Dbl.fin (-2)) (Dbl.fin 4) (Dbl.fin 0) (Dbl.fin b) =
      Dbl.div (Dbl.mul (Dbl.fin b) (Dbl.add v (Dbl.fin 2))) (Dbl.fin 6) := by
  rw [Dbl.mapRange, Dbl.zero_add, Dbl.sub_zero, Dbl.sub_neg_two, Dbl.four_sub_neg_two]

theorem Dbl.clamp_score (x : Dbl) (hx : x ≠ Dbl.nan) :
    ∃ c, Dbl.clamp x (Dbl.fin (-2)) (Dbl.fin 4) = Dbl.fin c ∧ |c| ≤ 4 := by
  cases x with
  | nan => exact absurd rfl hx
  | inf a =>
    cases a with
    | false => exact ⟨4, rfl, by norm_num⟩
    | true =>
      refine ⟨-2, ?_, by norm_num⟩
      simp only [Dbl.clamp, Dbl.max, Dbl.min]
      norm_num
  | fin q =>
    refine ⟨Min.min 4 (Max.max (-2) q), rfl, ?_⟩
    rw [abs_le]
    constructor
    · exact le_min (by norm_num) (le_trans (by norm_num) (le_max_left _ _))
    · exact min_le_left _ _

theorem Dbl.clamp_index (y : Dbl) (n : ℕ) (hn : 0 < n)
    (hy : y = Dbl.inf false ∨ y = Dbl.inf true ∨ ∃ z : ℤ, y = Dbl.fin (z : ℚ)) :
    ∃ i : ℕ, i < n ∧ Dbl.clamp y (Dbl.fin 0) (Dbl.fin ((n : ℚ) - 1)) = Dbl.fin (i : ℚ) := by
  have hn1 : ((n - 1 : ℕ) : ℚ) = (n : ℚ) - 1 := by
    rw [Nat.cast_sub hn]
    simp
  rcases hy with rfl | rfl | ⟨z, rfl⟩
  · refine ⟨n - 1, by omega, ?_⟩
    rw [hn1]
    rfl
  · refine ⟨0, hn, ?_⟩
    have h0 : (0 : ℚ) ≤ (n : ℚ) - 1 := by
      rw [← hn1]
      exact Nat.cast_nonneg _
    simp [Dbl.clamp, Dbl.max, Dbl.min, h0]
  · refine ⟨(Min.min ((n : ℤ) - 1) (Max.max 0 z)).toNat, ?_, ?_⟩
    · have h1 : Min.min ((n : ℤ) - 1) (Max.max 0 z) ≤ (n : ℤ) - 1 := min_le_left _ _
      omega
    · have h0 : (0 : ℤ) ≤ Min.min ((n : ℤ) - 1) (Max.max 0 z) :=
        le_min (by omega) (le_max_left _ _)
      have hc : (((Min.min ((n : ℤ) - 1) (Max.max 0 z)).toNat : ℕ) : ℚ) =
          ((Min.min ((n : ℤ) - 1) (Max.max 0 z) : ℤ) : ℚ) := by
        have := Int.toNat_of_nonneg h0
        exact_mod_cast this
      rw [hc]
      simp only [Dbl.clamp, Dbl.max, Dbl.min]
      push_cast
      rfl

theorem Dbl.round_shape (x : Dbl) (hx : x ≠ Dbl.nan) :
    Dbl.round x = Dbl.inf false ∨ Dbl.round x = Dbl.inf true ∨
      ∃ z : ℤ, Dbl.round x = Dbl.fin (z : ℚ) := by
  cases x with
  | nan => exact absurd rfl hx
  | inf a =>
    cases a with
    | false => exact Or.inl rfl
    | true => exact Or.inr (Or.inl rfl)
  | fin q => exact Or.inr (Or.inr ⟨mathRound q, rfl⟩)

theorem Dbl.arrayGet_natCast (p : List ℚ) (i : ℕ) (hi : i < p.length) :
    Dbl.arrayGet p (Dbl.fin (i : ℚ)) = some (p.get ⟨i, hi⟩) := by
  simp [Dbl.arrayGet, List.getElem?_eq_getElem hi]

theorem inferNextFocusSecondsDouble_eq (s : State) (p : List ℚ)
    (h : s.settings.focusPresets = some p) :
    inferNextFocusSecondsDouble s =
      Dbl.timesSixty (Dbl.arrayGet p (presetIndexDouble s.momentum s.sessions p.length)) := by
  simp only [inferNextFocusSecondsDouble, h, presetIndexDouble, combinedScoreDouble,
    histMomentumDouble]

theorem histMomentumDouble_ne_nan (sessions : List SessionRecord) :
    histMomentumDouble sessions ≠ Dbl.nan := by
  unfold histMomentumDouble
  split_ifs with h
  · apply Dbl.div_fin_ne_nan
    · exact Dbl.foldl_add_ne_nan _ _ (by simp)
    · exact_mod_cast h
  · simp

theorem Dbl.ofRat_three_fifths :
    Dbl.ofRat (3 / 5) = Dbl.fin (5404319552844595 / 9007199254740992) := by decide!

theorem Dbl.ofRat_two_fifths :
    Dbl.ofRat (2 / 5) = Dbl.fin (3602879701896397 / 9007199254740992) := by decide!

theorem combinedScoreDouble_fin (m : ℚ) (sessions : List SessionRecord) :
    ∃ c, combinedScoreDouble m sessions = Dbl.fin c ∧ |c| ≤ 37 := by
  obtain ⟨cm, hcm, hcmb⟩ := Dbl.clamp_score (Dbl.fin m) (by simp)
  obtain ⟨ch, hch, hchb⟩ := Dbl.clamp_score (histMomentumDouble sessions)
    (histMomentumDouble_ne_nan sessions)
  have h6 : |(5404319552844595 / 9007199254740992 : ℚ)| ≤ 1 := by
    rw [abs_le]
    constructor <;> norm_num
  have h4 : |(3602879701896397 / 9007199254740992 : ℚ)| ≤ 1 := by
    rw [abs_le]
    constructor <;> norm_num
  have hp1 : |(5404319552844595 / 9007199254740992 : ℚ)| * |cm| ≤ 4 := by
    calc |(5404319552844595 / 9007199254740992 : ℚ)| * |cm| ≤ 1 * 4 :=
          mul_le_mul h6 hcmb (abs_nonneg _) (by norm_num)
      _ = 4 := by norm_num
  have hp2 : |(3602879701896397 / 9007199254740992 : ℚ)| * |ch| ≤ 4 := by
    calc |(3602879701896397 / 9007199254740992 : ℚ)| * |ch| ≤ 1 * 4 :=
          mul_le_mul h4 hchb (abs_nonneg _) (by norm_num)
      _ = 4 := by norm_num
  obtain ⟨t1, ht1, ht1b⟩ :=
    Dbl.mul_fin_fin (5404319552844595 / 9007199254740992) cm (by linarith)
  obtain ⟨t2, ht2, ht2b⟩ :=
    Dbl.mul_fin_fin (3602879701896397 / 9007199254740992) ch (by linarith)
  obtain ⟨c, hc, hcb⟩ := Dbl.add_fin_fin t1 t2 (by linarith)
  refine ⟨c, ?_, by linarith⟩
  rw [combinedScoreDouble, Dbl.ofRat_three_fifths, Dbl.ofRat_two_fifths, hcm, hch, ht1, ht2, hc]

theorem presetIndexDouble_valid (m : ℚ) (sessions : List SessionRecord) (n : ℕ) (hn : 0 < n) :
    ∃ i : ℕ, i < n ∧ presetIndexDouble m sessions n = Dbl.fin (i : ℚ) := by
  obtain ⟨c, hc, hcb⟩ := combinedScoreDouble_fin m sessions
  obtain ⟨w, hw, _⟩ := Dbl.add_fin_fin c 2 (by
    have : |(2 : ℚ)| = 2 := abs_of_pos (by norm_num)
    linarith)
  unfold presetIndexDouble
  rw [Dbl.mapRange_double_eq, hc, hw]
  apply Dbl.clamp_index _ n hn
  apply Dbl.round_shape
  apply Dbl.div_fin_ne_nan _ _ _ (by norm_num)
  exact Dbl.mul_fin_fin_ne_nan _ _

theorem inferNextFocusSecondsDouble_nonempty (s : State) (p : List ℚ)
    (h : s.settings.focusPresets = some p) (hp : p ≠ []) :
    ∃ (i : ℕ) (hi : i < p.length),
      presetIndexDouble s.momentum s.sessions p.length = Dbl.fin (i : ℚ) ∧
      inferNextFocusSecondsDouble s = Dbl.mul (Dbl.fin (p.get ⟨i, hi⟩)) (Dbl.fin 60) := by
  obtain ⟨i, hi, he⟩ := presetIndexDouble_valid s.momentum s.sessions p.length
    (List.length_pos.mpr hp)
  refine ⟨i, hi, he, ?_⟩
  rw [inferNextFocusSecondsDouble_eq s p h, he, Dbl.arrayGet_natCast p i hi]
  rfl

/-- C1 amended: for every momentum, session log and non-empty preset list `p` of
`n` values, `inferNextFocusSeconds` returns the double product `p[i] * 60` at the
valid index `i = clamp(round((n-1) * (c + 2) / 6), 0, n-1)`, where
`c = 0.6 * clamp(m, -2, 4) + 0.4 * clamp(h, -2, 4)`, `h` is the mean of the
momentum snapshots of the last 6 session records (0 for an empty log), and every
sum, product and quotient is the rounded double result.  With momentum 4, an
empty log and the default presets the result is 1260 seconds. -/
theorem inferNextFocusSecondsDouble_formula :
    (∀ (s : State) (p : List ℚ), s.settings.focusPresets = some p → p ≠ [] →
      let last := (s.sessions.reverse.take 6).reverse
      let h : Dbl :=
        if last = [] then Dbl.fin 0
        else Dbl.div (last.foldl (fun a r => Dbl.add a (Dbl.fin r.momentum)) (Dbl.fin 0))
          (Dbl.fin (last.length : ℚ))
      let c : Dbl :=
        Dbl.add
          (Dbl.mul (Dbl.ofRat (3 / 5)) (Dbl.clamp (Dbl.fin s.momentum) (Dbl.fin (-2)) (Dbl.fin 4)))
          (Dbl.mul (Dbl.ofRat (2 / 5)) (Dbl.clamp h (Dbl.fin (-2)) (Dbl.fin 4)))
      let x : Dbl :=
        Dbl.div (Dbl.mul (Dbl.fin ((p.length : ℚ) - 1)) (Dbl.add c (Dbl.fin 2))) (Dbl.fin 6)
      ∃ (i : ℕ) (hi : i < p.length),
        Dbl.clamp (Dbl.round x) (Dbl.fin 0) (Dbl.fin ((p.length : ℚ) - 1)) = Dbl.fin (i : ℚ) ∧
        inferNextFocusSecondsDouble s = Dbl.mul (Dbl.fin (p.get ⟨i, hi⟩)) (Dbl.fin 60)) ∧
    inferNextFocusSecondsDouble { initialState with momentum := 4 } = Dbl.fin 1260 := by
  constructor
  · intro s p h hp
    obtain ⟨i, hi, he, hr⟩ := inferNextFocusSecondsDouble_nonempty s p h hp
    have hidx : presetIndexDouble s.momentum s.sessions p.length =
        Dbl.clamp (Dbl.round
          (Dbl.div (Dbl.mul (Dbl.fin ((p.length : ℚ) - 1))
            (Dbl.add
              (Dbl.add
                (Dbl.mul (Dbl.ofRat (3 / 5))
                  (Dbl.clamp (Dbl.fin s.momentum) (Dbl.fin (-2)) (Dbl.fin 4)))
                (Dbl.mul (Dbl.ofRat (2 / 5))
                  (Dbl.clamp
                    (if (s.sessions.reverse.take 6).reverse = [] then Dbl.fin 0
                      else Dbl.div
                        ((s.sessions.reverse.take 6).reverse.foldl
                          (fun a r => Dbl.add a (Dbl.fin r.momentum)) (Dbl.fin 0))
                        (Dbl.fin (((s.sessions.reverse.take 6).reverse.length : ℕ) : ℚ)))
                    (Dbl.fin (-2)) (Dbl.fin 4))))
              (Dbl.fin 2))) (Dbl.fin 6)))
          (Dbl.fin 0) (Dbl.fin ((p.length : ℚ) - 1)) := by
      rw [presetIndexDouble, Dbl.mapRange_double_eq, combinedScoreDouble, histMomentumDouble,
        sliceLast_eq_reverse]
      by_cases hl : (s.sessions.reverse.take 6).reverse = []
      · rw [if_pos hl, if_neg (by simp [hl])]
      · rw [if_neg hl, if_pos (by
          intro h0
          exact hl (List.length_eq_zero.mp h0))]
    simp only
    rw [← hidx]
    exact ⟨i, hi, he, hr⟩
  · decide!

/-- C1 amended, at `tieState`: the list is non-empty, so the formula in double
arithmetic gives a valid index and the result is the product at that index. -/
theorem inferNextFocusSecondsDouble_formula_witness :
    ∃ (i : ℕ) (hi : i < [(5 : ℚ), 10, 15, 20, 25, 30].length),
      inferNextFocusSecondsDouble tieState =
        Dbl.mul (Dbl.fin ([(5 : ℚ), 10, 15, 20, 25, 30].get ⟨i, hi⟩)) (Dbl.fin 60) :=
  let ⟨i, hi, _, hr⟩ :=
    inferNextFocusSecondsDouble_formula.1 tieState [5, 10, 15, 20, 25, 30] rfl (by simp)
  ⟨i, hi, hr⟩

/-- C1 as stated fails at `tieState` (momentum 3, one record of momentum 1, six
presets): the claim's index is `clamp(round(5 * (2.2 + 2) / 6), 0, 5) = 4`, so its
value is `60 * 25 = 1500` (what the function gives in exact arithmetic), but the
program computes `0.6 * 3` as `1.7999999999999998`, maps the score to
`3.4999999999999996`, takes index 3 and returns 1200. -/
theorem inferNextFocusSeconds_rounding_counterexample :
    inferNextFocusSecondsDouble tieState = Dbl.fin 1200 ∧
    inferNextFocusSeconds tieState = JSNum.num 1500 ∧
    clamp (round (((6 : ℚ) - 1) *
      ((3 / 5 * clamp (3 : ℚ) (-2) 4 + 2 / 5 * clamp ((1 : ℚ) / 1) (-2) 4) + 2) / 6))
      0 ((6 : ℤ) - 1) = 4 ∧
    60 * [(5 : ℚ), 10, 15, 20, 25, 30].get ⟨4, by decide⟩ = 1500 ∧
    Dbl.fin 1200 ≠ Dbl.fin (60 * [(5 : ℚ), 10, 15, 20, 25, 30].get ⟨4, by decide⟩) := by
  refine ⟨by decide!, by decide!, by decide!, by decide!, by decide!⟩

end FocusTimer
